import Mathlib

/-!
Verification of the detection post-processor of the Sensor-Prototyping
repository (`rpicam/src/hailo_inference.py`) and of its configuration
loader (`rpicam/src/config.py`).

Shallow embedding conventions:
* numpy float arrays are embedded as (nested) `List ℚ`; all float
  arithmetic of the source is exact rational arithmetic here (the values
  exercised by the code — thresholds 0.5 and 0.01, normalized box
  coordinates scaled by frame sizes — are decided identically by exact
  rationals at every input considered).
* a raw tensor bundle (`raw_output`) is a structure holding the four
  tensors the code reads, each still carrying its leading batch axis;
* code that can raise is embedded as an `Except Unit`-valued function
  whose `.error` results are the exception paths (numpy `IndexError` /
  `ValueError`, OpenCV errors); the `try/except` wrappers map `.error`
  to `none` exactly as the Python code maps any exception to `None`;
* `np.argsort` (default `kind='quicksort'`) is embedded from numpy's
  generic introspective sort for argsort
  (`numpy/core/src/npysort/quicksort.c.src`, `aquicksort_` with
  `SMALL_QUICKSORT = 15`, median-of-3 partitioning, depth-limited
  fallback to `aheapsort_`, insertion sort on small partitions); this is
  the code path taken on the target platform.  It is *not* a stable
  sort.
* `int32` truncation of a float (`astype(np.int32)`) is embedded as
  rational truncation toward zero; the int32 overflow behaviour of the
  C float-to-int cast is platform-defined and outside the embedding.
-/

/-- Truncation toward zero of a rational (`q.num / q.den` in truncating
integer division), the behaviour of `astype(np.int32)` on in-range
values. -/
def ratTrunc (q : ℚ) : ℤ := q.num.tdiv q.den

/-- One grid cell that survived the confidence threshold: its grid
coordinates (`valid_y`, `valid_x`), its per-cell max score
(`max_scores[y, x]`) and argmax class (`class_ids[y, x]`). -/
structure Cell where
  y : ℕ
  x : ℕ
  score : ℚ
  classId : ℕ
deriving DecidableEq

/-- A detection retained by step 5 of the post-processor, before mask
resizing and box conversion: encoded box (4 values), score, class id and
the native-resolution mask channel. -/
structure Det where
  box : List ℚ
  score : ℚ
  classId : ℕ
  mask : List (List ℚ)
deriving DecidableEq

/-- The raw tensor bundle `raw_output` of `postprocess_output`: the four
tensors read from the inference dictionary, each with its leading batch
axis (`[1, ...]` for well-formed accelerator output).  Grids are indexed
`[batch][row][column][channel]`. -/
structure RawOutput where
  boxes : List (List (List (List ℚ)))
  scores : List (List (List (List ℚ)))
  classes : List (List (List (List ℚ)))
  masks : List (List (List (List ℚ)))
deriving DecidableEq

/-- The dictionary returned by `postprocess_output` on success: pixel
boxes (`int32`), scores, class ids, and binary masks at frame
resolution. -/
structure PPResult where
  boxes : List (List ℤ)
  scores : List ℚ
  classes : List ℕ
  masks : List (List (List ℕ))
deriving DecidableEq

/-- Per-cell maximum across class channels, `np.max(scores, axis=2)` at
one cell (only applied to nonempty cells; the empty-axis `ValueError` is
modelled separately in the pipeline). -/
def cellMax : List ℚ → ℚ
  | [] => 0
  | a :: rest => rest.foldl max a

/-- Helper for `cellArgmax`: running first-maximum index scan. -/
def argmaxGo : List ℚ → ℚ → ℕ → ℕ → ℕ
  | [], _, _, best => best
  | a :: rest, bv, i, best =>
      if bv < a then argmaxGo rest a (i + 1) i else argmaxGo rest bv (i + 1) best

/-- Index of the first maximum across class channels,
`np.argmax(scores, axis=2)` at one cell. -/
def cellArgmax : List ℚ → ℕ
  | [] => 0
  | a :: rest => argmaxGo rest a 1 0

/-- The surviving cells in row-major scan order: the combination of
`valid_cells = max_scores > threshold` and `np.where`, which yields
coordinates with `y` ascending and `x` ascending within each `y`, paired
with each cell's max score and argmax class id. -/
def survivors (scs : List (List (List ℚ))) (thr : ℚ) : List Cell :=
  (scs.enum.map (fun yr =>
    yr.2.enum.filterMap (fun xc =>
      if thr < cellMax xc.2 then some ⟨yr.1, xc.1, cellMax xc.2, cellArgmax xc.2⟩
      else none))).flatten

/-- Channel count of the (batch-stripped) mask grid, `masks.shape[2]`;
an ndarray is rectangular, so the first cell's channel count is the
shape entry. -/
def maskChannels (mks : List (List (List ℚ))) : ℕ := ((mks.headD []).headD []).length

/-- One mask channel, `masks[:, :, class_id]`. -/
def maskChannel (mks : List (List (List ℚ))) (cid : ℕ) : List (List ℚ) :=
  mks.map (fun row => row.map (fun cell => cell.getD cid 0))

/-- Number of mask pixels strictly above 0.5. -/
def maskCount (m : List (List ℚ)) : ℕ :=
  (m.map (fun row => (row.filter (fun v => decide ((1 : ℚ) / 2 < v))).length)).sum

/-- Total number of mask pixels. -/
def maskTotal (m : List (List ℚ)) : ℕ := (m.map List.length).sum

/-- The value `np.mean(mask > 0.5)` as an exact rational.  On an empty
mask numpy produces `nan` and every comparison with it is false; here
the rational convention `0 / 0 = 0` makes the same comparisons false, so
the keep-decision agrees. -/
def maskFrac (m : List (List ℚ)) : ℚ := (maskCount m : ℚ) / (maskTotal m : ℚ)

/-- `cv2.resize(src, (w, h), interpolation=cv2.INTER_NEAREST)` for a 2-D
array: output pixel `(i, j)` reads source pixel
`(min(floor(i*srcH/h), srcH-1), min(floor(j*srcW/w), srcW-1))`, the
asymmetric nearest-neighbour mapping OpenCV uses, in exact arithmetic. -/
def cvResizeNearest (src : List (List ℚ)) (h w : ℕ) : List (List ℚ) :=
  let srcH := src.length
  let srcW := (src.headD []).length
  (List.range h).map (fun i =>
    (List.range w).map (fun j =>
      (src.getD (min (i * srcH / h) (srcH - 1)) []).getD (min (j * srcW / w) (srcW - 1)) 0))

/-- The binarisation `(resized_mask > 0.5).astype(np.uint8)`. -/
def binarizeMask (m : List (List ℚ)) : List (List ℕ) :=
  m.map (fun row => row.map (fun v => if (1 : ℚ) / 2 < v then 1 else 0))

/-! ### numpy `argsort` (default quicksort kind)

Functional embedding of numpy's generic `aquicksort_` /
`ainsertionsort` / `aheapsort_` from `npysort/quicksort.c.src` and
`npysort/heapsort.c.src`, on an index list `tosort` ordered by a key
function.  `np.argsort(-cell_scores)` is this algorithm with key
`i ↦ -cell_scores[i]`. -/

/-- Swap two positions of the index list (`INTP_SWAP`); out-of-range
positions leave the list unchanged (never exercised by reachable
states). -/
def lswap (l : List ℕ) (i j : ℕ) : List ℕ :=
  match l.get? i, l.get? j with
  | some a, some b => (l.set i b).set j a
  | _, _ => l

/-- Key of the index stored at position `p`. -/
def keyAt (key : ℕ → ℚ) (l : List ℕ) (p : ℕ) : ℚ := key (l.getD p 0)

/-- The partition scan `do ++pi; while (key(arr[pi]) < vp)`: starting
from position `p`, return the first position `> p` whose key is not
below the pivot.  Fuel-bounded; in reachable states the pivot sentinel
stops the scan before the fuel runs out. -/
def scanUp (key : ℕ → ℚ) (arr : List ℕ) (vp : ℚ) : ℕ → ℕ → ℕ
  | p, 0 => p + 1
  | p, fuel + 1 =>
      let p' := p + 1
      if keyAt key arr p' < vp then scanUp key arr vp p' fuel else p'

/-- The partition scan `do --pj; while (vp < key(arr[pj]))`. -/
def scanDown (key : ℕ → ℚ) (arr : List ℕ) (vp : ℚ) : ℕ → ℕ → ℕ
  | p, 0 => p - 1
  | p, fuel + 1 =>
      let p' := p - 1
      if vp < keyAt key arr p' then scanDown key arr vp p' fuel else p'

/-- The inner partition exchange loop of `aquicksort_`; returns the
array and the crossing position `pi`. -/
def partLoop (key : ℕ → ℚ) (vp : ℚ) : List ℕ → ℕ → ℕ → ℕ → (List ℕ × ℕ)
  | arr, pi, _, 0 => (arr, pi)
  | arr, pi, pj, fuel + 1 =>
      let pi' := scanUp key arr vp pi (arr.length + 2)
      let pj' := scanDown key arr vp pj (arr.length + 2)
      if pj' ≤ pi' then (arr, pi')
      else partLoop key vp (lswap arr pi' pj') pi' pj' fuel

/-- One `aquicksort_` partition of the segment `[pl, pr]`: median-of-3
pivot selection with its three conditional swaps, pivot parked at
`pr - 1`, exchange loop, pivot swapped back to the crossing position. -/
def partitionSeg (key : ℕ → ℚ) (arr : List ℕ) (pl pr : ℕ) : (List ℕ × ℕ) :=
  let pm := pl + (pr - pl) / 2
  let a1 := if keyAt key arr pm < keyAt key arr pl then lswap arr pm pl else arr
  let a2 := if keyAt key a1 pr < keyAt key a1 pm then lswap a1 pr pm else a1
  let a3 := if keyAt key a2 pm < keyAt key a2 pl then lswap a2 pm pl else a2
  let vp := keyAt key a3 pm
  let a4 := lswap a3 pm (pr - 1)
  let s := partLoop key vp a4 pl (pr - 1) (a4.length + 2)
  (lswap s.1 s.2 (pr - 1), s.2)

/-- One-based read into the heap segment starting at `pl`. -/
def hGet (arr : List ℕ) (pl k : ℕ) : ℕ := arr.getD (pl + k - 1) 0

/-- One-based write into the heap segment starting at `pl`. -/
def hSet (arr : List ℕ) (pl k v : ℕ) : List ℕ := arr.set (pl + k - 1) v

/-- Sift-down of `aheapsort_` over the heap of size `n` rooted in the
segment starting at `pl`, moving the hole at `i` down and finally
writing `tmp`. -/
def siftDown (key : ℕ → ℚ) (pl n tmp : ℕ) : List ℕ → ℕ → ℕ → ℕ → List ℕ
  | arr, i, _, 0 => hSet arr pl i tmp
  | arr, i, j, fuel + 1 =>
      if j ≤ n then
        let j' := if j < n ∧ key (hGet arr pl j) < key (hGet arr pl (j + 1)) then j + 1 else j
        if key tmp < key (hGet arr pl j') then
          siftDown key pl n tmp (hSet arr pl i (hGet arr pl j')) j' (j' + j') fuel
        else hSet arr pl i tmp
      else hSet arr pl i tmp

/-- Heapify phase of `aheapsort_`: sift down roots `n/2, ..., 1`. -/
def heapifyLoop (key : ℕ → ℚ) (pl n : ℕ) : List ℕ → ℕ → List ℕ
  | arr, 0 => arr
  | arr, l + 1 =>
      let tmp := hGet arr pl (l + 1)
      heapifyLoop key pl n (siftDown key pl n tmp arr (l + 1) ((l + 1) + (l + 1)) (n + 2)) l

/-- Extraction phase of `aheapsort_`: repeatedly move the root behind
the shrinking heap. -/
def heapExtract (key : ℕ → ℚ) (pl : ℕ) : List ℕ → ℕ → List ℕ
  | arr, m + 2 =>
      let tmp := hGet arr pl (m + 2)
      let arr1 := hSet arr pl (m + 2) (hGet arr pl 1)
      heapExtract key pl (siftDown key pl (m + 1) tmp arr1 1 2 (m + 4)) (m + 1)
  | arr, _ => arr

/-- numpy `aheapsort_` on the segment `[pl, pr]`. -/
def aheapsortSeg (key : ℕ → ℚ) (arr : List ℕ) (pl pr : ℕ) : List ℕ :=
  let n := pr + 1 - pl
  heapExtract key pl (heapifyLoop key pl n arr (n / 2)) n

/-- One step of numpy's argsort insertion sort: insert index `i` into
the list after the last position whose key is `≤ key i`, i.e. shift
right exactly the maximal suffix all of whose keys exceed `key i` (the
`while (pj > pl && key i < key (arr[pk]))` shift loop scanning from the
right). -/
def ainsertStep (key : ℕ → ℚ) (i : ℕ) : List ℕ → List ℕ
  | [] => [i]
  | j :: rest =>
      if (j :: rest).all (fun k => decide (key i < key k)) then i :: j :: rest
      else j :: ainsertStep key i rest

/-- numpy's argsort insertion sort of an index list, left to right. -/
def ainsertionList (key : ℕ → ℚ) (l : List ℕ) : List ℕ :=
  l.foldl (fun acc i => ainsertStep key i acc) []

/-- Insertion sort of the segment `[pl, pr]` of the index list (the
small-partition branch of `aquicksort_`); the segment contents are
sorted in place, the rest of the list is untouched. -/
def ainsertionSeg (key : ℕ → ℚ) (arr : List ℕ) (pl pr : ℕ) : List ℕ :=
  let len := min (pr + 1 - pl) (arr.length - pl)
  let seg := (List.range len).map (fun k => arr.getD (pl + k) 0)
  arr.take pl ++ ainsertionList key seg ++ arr.drop (pl + len)

/-- The main loop of `aquicksort_`: partitions segments longer than
`SMALL_QUICKSORT = 15` elements minus one (`pr - pl > 15`), keeps the
smaller half and stacks the larger, falls back to `aheapsort_` when the
shared depth budget is exhausted, and insertion-sorts small segments.
Fuel-bounded; the fuel used by `npArgsortNeg` dominates the loop's
actual iteration count. -/
def aqsLoop (key : ℕ → ℚ) : ℕ → List ℕ → ℕ → ℕ → ℤ → List (ℕ × ℕ) → List ℕ
  | 0, arr, _, _, _, _ => arr
  | fuel + 1, arr, pl, pr, depth, stack =>
      if 15 < pr - pl then
        if depth < 0 then
          let arr' := aheapsortSeg key arr pl pr
          match stack with
          | [] => arr'
          | (l, r) :: st => aqsLoop key fuel arr' l r (depth - 1) st
        else
          let s := partitionSeg key arr pl pr
          if s.2 - pl < pr - s.2 then
            aqsLoop key fuel s.1 pl (s.2 - 1) (depth - 1) ((s.2 + 1, pr) :: stack)
          else
            aqsLoop key fuel s.1 (s.2 + 1) pr (depth - 1) ((pl, s.2 - 1) :: stack)
      else
        let arr' := ainsertionSeg key arr pl pr
        match stack with
        | [] => arr'
        | (l, r) :: st => aqsLoop key fuel arr' l r depth st

/-- `np.argsort(-xs)` with numpy's default quicksort kind: the index
permutation produced by `aquicksort_` on keys `i ↦ -xs[i]`, with the
depth budget `2 * npy_get_msb(n)`. -/
def npArgsortNeg (xs : List ℚ) : List ℕ :=
  let n := xs.length
  let key := fun i => -(xs.getD i 0)
  aqsLoop key (4 * n + 16) (List.range n) 0 (n - 1) (2 * (Nat.log2 n : ℤ)) []

/-- The order established on indices by a stable descending-key argsort:
strictly smaller key, or equal keys and smaller index.  The insertion
path of the embedded argsort produces a list pairwise in this relation. -/
def SRel (key : ℕ → ℚ) (a b : ℕ) : Prop :=
  key a < key b ∨ (key a = key b ∧ a < b)

/-! ### The post-processor pipeline -/

/-- The fancy-indexing gather `valid_y[sort_idx]` / `valid_x[sort_idx]`
over the surviving cells; an out-of-range index raises `IndexError`
(never reached by numpy's argsort output, but part of the numpy
semantics being embedded). -/
def gatherE (cells : List Cell) : List ℕ → Except Unit (List Cell)
  | [] => Except.ok []
  | i :: rest =>
      match cells.get? i with
      | none => Except.error ()
      | some c =>
          match gatherE cells rest with
          | Except.error e => Except.error e
          | Except.ok l => Except.ok (c :: l)

/-- The body of the `for y, x in zip(valid_y, valid_x)` loop for one
cell: look up the cell of the box grid (`IndexError` if the grids
disagree on shape), reshape it to `(-1, 4)` and take row 0
(`ValueError` if the cell size is not a positive multiple of 4), skip
the cell if its class id is out of bounds for the mask channels, then
keep it only if its mask channel covers more than 1% of the pixels.
`.ok none` is a skipped cell, `.ok (some d)` a retained one. -/
def processCell (bxs mks : List (List (List ℚ))) (maskCh : ℕ) (c : Cell) :
    Except Unit (Option Det) :=
  match (bxs.get? c.y).bind (fun row => row.get? c.x) with
  | none => Except.error ()
  | some cellBox =>
      if cellBox.length % 4 ≠ 0 ∨ cellBox.length = 0 then Except.error ()
      else if maskCh ≤ c.classId then Except.ok none
      else if (1 : ℚ) / 100 < maskFrac (maskChannel mks c.classId) then
        Except.ok (some ⟨cellBox.take 4, c.score, c.classId, maskChannel mks c.classId⟩)
      else Except.ok none

/-- Step 5 of the post-processor: process the capped, sorted cells in
order, accumulating the retained detections. -/
def processAll (bxs mks : List (List (List ℚ))) (maskCh : ℕ) :
    List Cell → Except Unit (List Det)
  | [] => Except.ok []
  | c :: rest =>
      match processCell bxs mks maskCh c with
      | Except.error e => Except.error e
      | Except.ok none => processAll bxs mks maskCh rest
      | Except.ok (some d) =>
          match processAll bxs mks maskCh rest with
          | Except.error e => Except.error e
          | Except.ok ds => Except.ok (d :: ds)

/-- Steps 7–9: resize and binarise each retained mask to the original
frame size and convert each retained box to pixel coordinates with the
source's axis remapping (`[y1, x1, y2, x2] = [box[1]*h, box[0]*w,
box[3]*h, box[2]*w]` truncated to integers). -/
def buildResult (dets : List Det) (h w : ℕ) : PPResult where
  boxes := dets.map (fun d =>
    [ratTrunc (d.box.getD 1 0 * (h : ℚ)), ratTrunc (d.box.getD 0 0 * (w : ℚ)),
     ratTrunc (d.box.getD 3 0 * (h : ℚ)), ratTrunc (d.box.getD 2 0 * (w : ℚ))])
  scores := dets.map (·.score)
  classes := dets.map (·.classId)
  masks := dets.map (fun d => binarizeMask (cvResizeNearest d.mask h w))

/-- The `try` body of `postprocess_output` (HailoRT available, raw
output not `None`): `.error` results are the exception paths the
enclosing `except` turns into `None`.  The batch strip `t[0]` raises on
an empty batch axis; `np.max(scores, axis=2)` raises when some cell has
an empty channel axis; `cv2.resize` raises when the requested frame
size is degenerate. -/
def postprocessE (thr : ℚ) (raw : RawOutput) (h w : ℕ) : Except Unit (Option PPResult) :=
  match raw.boxes.head? with
  | none => Except.error ()
  | some bxs =>
  match raw.scores.head? with
  | none => Except.error ()
  | some scs =>
  match raw.classes.head? with
  | none => Except.error ()
  | some _ =>
  match raw.masks.head? with
  | none => Except.error ()
  | some mks =>
      if scs.any (fun row => row.any (fun c => c.isEmpty)) then Except.error ()
      else
        match survivors scs thr with
        | [] => Except.ok none
        | v :: vrest =>
            match gatherE (v :: vrest) (npArgsortNeg ((v :: vrest).map (·.score))) with
            | Except.error _ => Except.error ()
            | Except.ok sortedCells =>
                match processAll bxs mks (maskChannels mks) (sortedCells.take 20) with
                | Except.error _ => Except.error ()
                | Except.ok dets =>
                    match dets with
                    | [] => Except.ok none
                    | d :: drest =>
                        if h = 0 ∨ w = 0 then Except.error ()
                        else Except.ok (some (buildResult (d :: drest) h w))

/-- `postprocess_output` itself: the `try` body with every exception
converted to `None` by the `except` clause. -/
def postprocess_output (thr : ℚ) (raw : RawOutput) (h w : ℕ) : Option PPResult :=
  match postprocessE thr raw h w with
  | Except.ok r => r
  | Except.error _ => none

/-- The `raw_output is None` early return of `postprocess_output`. -/
def postprocessOpt (thr : ℚ) (raw : Option RawOutput) (h w : ℕ) : Option PPResult :=
  match raw with
  | none => none
  | some r => postprocess_output thr r h w

/-! ### The `predict` pipeline -/

/-- An image frame, reduced to the data the verified claims depend on:
its height and width (`frame.shape[:2]`).  Pixel contents do not affect
any claim. -/
structure Frame where
  h : ℕ
  w : ℕ
deriving DecidableEq

/-- The `try`-visible behaviour of `preprocess_frame` on a non-`None`
frame: `cv2.resize` to the configured model input size, raising (an
error the caller's `except` catches) when the source frame or the
requested size is degenerate; the result is a frame of the model input
size. -/
def preprocess_frameE (inH inW : ℕ) (f : Frame) : Except Unit Frame :=
  if f.h = 0 ∨ f.w = 0 ∨ inH = 0 ∨ inW = 0 then Except.error ()
  else Except.ok ⟨inH, inW⟩

/-- `run_inference`: the accelerator call is an external collaborator,
given here as an oracle `infer`; the function returns `None` when the
stream context was never initialised and converts any exception of the
vendor call to `None` through its own `try/except`. -/
def run_inference_model (infer : Frame → Except Unit (Option RawOutput)) (ctxOk : Bool)
    (pre : Frame) : Option RawOutput :=
  if ctxOk then
    match infer pre with
    | Except.error _ => none
    | Except.ok r => r
  else none

/-- The `try` body of `predict` on a non-`None` frame: preprocess (may
raise), run inference (totalised internally), post-process with the
original frame's shape. -/
def predictBodyE (thr : ℚ) (inH inW : ℕ) (infer : Frame → Except Unit (Option RawOutput))
    (ctxOk : Bool) (f : Frame) : Except Unit (Option PPResult) :=
  match preprocess_frameE inH inW f with
  | Except.error e => Except.error e
  | Except.ok pre =>
      Except.ok (postprocessOpt thr (run_inference_model infer ctxOk pre) f.h f.w)

/-- `predict`: `None` frames short-circuit to `None`; otherwise the
`try` body runs with every exception converted to `None`. -/
def predict (thr : ℚ) (inH inW : ℕ) (infer : Frame → Except Unit (Option RawOutput))
    (ctxOk : Bool) (frame : Option Frame) : Option PPResult :=
  match frame with
  | none => none
  | some f =>
      match predictBodyE thr inH inW infer ctxOk f with
      | Except.ok r => r
      | Except.error _ => none

/-! ### The configuration loader (`config.py`) -/

/-- A loaded YAML configuration value. -/
inductive YVal where
  | null : YVal
  | bool : Bool → YVal
  | int : ℤ → YVal
  | str : String → YVal
  | list : List YVal → YVal
  | dict : List (String × YVal) → YVal

/-- Python dictionary membership / lookup for a configuration mapping. -/
def ylookup (k : String) : List (String × YVal) → Option YVal
  | [] => none
  | p :: rest => if p.1 = k then some p.2 else ylookup k rest

/-- The key-walking loop of `Config.get`: descend through nested
dictionaries while each key is present, otherwise return the default. -/
def configGetKeys (dflt : YVal) : YVal → List String → YVal
  | v, [] => v
  | v, k :: rest =>
      match v with
      | YVal.dict d =>
          match ylookup k d with
          | some v' => configGetKeys dflt v' rest
          | none => dflt
      | _ => dflt

/-- `Config.get(key_path, default)`: split the dotted path and walk the
document; Python's implicit `default=None` is `YVal.null`. -/
def configGet (data : YVal) (keyPath : String) (dflt : YVal) : YVal :=
  configGetKeys dflt data (keyPath.splitOn ("."))

/-- Whether a dotted key path is entirely present in a document: every
key in turn is found in a dictionary at the corresponding level. -/
def pathPresent : YVal → List String → Bool
  | _, [] => true
  | YVal.dict d, k :: rest =>
      match ylookup k d with
      | some v => pathPresent v rest
      | none => false
  | _, _ :: _ => false

/-- The hard-coded default document of `Config._default_config`. -/
def defaultConfig : YVal :=
  YVal.dict
    [ ("model", YVal.dict
        [ ("path", YVal.str ("models/stdc1.hef"))
        , ("input_size", YVal.list [YVal.int 1024, YVal.int 1920, YVal.int 3])
        , ("target_size", YVal.list [YVal.int 720, YVal.int 1280]) ])
    , ("camera", YVal.dict
        [ ("resolution", YVal.list [YVal.int 720, YVal.int 1280])
        , ("framerate", YVal.int 30)
        , ("format", YVal.str ("RGB888")) ])
    , ("processing", YVal.dict
        [ ("target_fps", YVal.int 25)
        , ("enable_boundary_extraction", YVal.bool true)
        , ("visualization", YVal.bool true) ]) ]

/-- `Config._load_config`: the successfully parsed file document when
the file exists, the hard-coded default document on
`FileNotFoundError`. -/
def loadConfig (file : Option YVal) : YVal :=
  match file with
  | some doc => doc
  | none => defaultConfig

/-! ### Concrete example inputs -/

/-- A minimal well-formed bundle producing one detection: one grid cell
with score 0.9 and class 0, encoded box `(0.1, 0.2, 0.3, 0.4)`, a fully
covered one-pixel mask channel. -/
def exRawS : RawOutput where
  boxes := [[[[1/10, 2/10, 3/10, 4/10]]]]
  scores := [[[[9/10]]]]
  classes := [[[[0]]]]
  masks := [[[[1]]]]

/-- The full output of the post-processor on `exRawS` with frame size
2×3. -/
def exResS : PPResult where
  boxes := [[0, 0, 0, 0]]
  scores := [9/10]
  classes := [0]
  masks := [[[1, 1, 1], [1, 1, 1]]]

/-- A bundle with two surviving cells of the same class (scores 0.9 and
0.8) sharing the single mask channel. -/
def exRaw2 : RawOutput where
  boxes := [[[[1/10, 2/10, 3/10, 4/10], [5/10, 6/10, 7/10, 8/10]]]]
  scores := [[[[9/10], [8/10]]]]
  classes := [[[[0], [0]]]]
  masks := [[[[1]]]]

/-- The full output of the post-processor on `exRaw2` with frame size
2×2. -/
def exRes2 : PPResult where
  boxes := [[0, 0, 0, 0], [1, 1, 1, 1]]
  scores := [9/10, 8/10]
  classes := [0, 0]
  masks := [[[1, 1], [1, 1]], [[1, 1], [1, 1]]]

/-- A bundle whose only cell scores 0.1, below the default threshold. -/
def exRawLow : RawOutput where
  boxes := [[[[1/10, 2/10, 3/10, 4/10]]]]
  scores := [[[[1/10]]]]
  classes := [[[[0]]]]
  masks := [[[[1]]]]

/-- A mask grid whose only channel covers exactly 1% of its 10×10
pixels (one pixel equal to 1). -/
def cexC6masks : List (List (List (List ℚ))) :=
  [(List.range 10).map (fun i => (List.range 10).map (fun j =>
    if i = 0 ∧ j = 0 then [1] else [0]))]

/-- A bundle whose single surviving cell has a mask channel covering
exactly 1% of its pixels: the code excludes it (coverage is not
strictly above 1%). -/
def cexC6 : RawOutput where
  boxes := [[[[1/10, 2/10, 3/10, 4/10]]]]
  scores := [[[[9/10]]]]
  classes := [[[[0]]]]
  masks := cexC6masks

/-- A score grid with 17 surviving cells in one row, all with identical
confidence 0.9; 17 exceeds numpy's `SMALL_QUICKSORT` insertion-sort
bound, so the unstable quicksort partition scrambles the tie order. -/
def cexScs17 : List (List (List ℚ)) :=
  [(List.range 17).map (fun _ => [9/10])]

/-- A full bundle built on `cexScs17` whose boxes identify each cell
(cell `x` carries the constant encoded box `x/100`), making the
processing order observable in the returned pixel boxes. -/
def cexRaw17 : RawOutput where
  boxes := [[(List.range 17).map (fun x =>
    [(x : ℚ)/100, (x : ℚ)/100, (x : ℚ)/100, (x : ℚ)/100])]]
  scores := [cexScs17]
  classes := [[(List.range 17).map (fun _ => [0])]]
  masks := [[[[1]]]]

/-- The score grid for the `C2` witness: two surviving cells with
distinct confidences. -/
def scsW : List (List (List ℚ)) := [[[9/10], [7/10]]]

/-! ### Helper lemmas about the pipeline -/

theorem mem_survivors_score {scs : List (List (List ℚ))} {thr : ℚ} {c : Cell}
    (hc : c ∈ survivors scs thr) : thr < c.score := by
  simp only [survivors, List.mem_flatten, List.mem_map] at hc
  obtain ⟨l, ⟨yr, hyr, rfl⟩, hcl⟩ := hc
  simp only [List.mem_filterMap] at hcl
  obtain ⟨xc, hxc, hix⟩ := hcl
  split at hix
  · cases hix
    assumption
  · cases hix

theorem foldl_max_lt {thr : ℚ} :
    ∀ (rest : List ℚ) (a : ℚ), a < thr → (∀ s ∈ rest, s < thr) →
      rest.foldl max a < thr
  | [], _, ha, _ => ha
  | b :: rest, a, ha, hrest => by
      simp only [List.foldl_cons]
      exact foldl_max_lt rest (max a b)
        (max_lt ha (hrest b (List.mem_cons_self b rest)))
        (fun s hs => hrest s (List.mem_cons_of_mem b hs))

theorem cellMax_lt {l : List ℚ} {thr : ℚ} (hne : l ≠ [])
    (hb : ∀ s ∈ l, s < thr) : cellMax l < thr := by
  match l, hne with
  | a :: rest, _ =>
    simp only [cellMax]
    exact foldl_max_lt rest a (hb a (List.mem_cons_self a rest))
      (fun s hs => hb s (List.mem_cons_of_mem a hs))

theorem survivors_eq_nil {scs : List (List (List ℚ))} {thr : ℚ}
    (hne : ∀ row ∈ scs, ∀ cell ∈ row, cell ≠ [])
    (hb : ∀ row ∈ scs, ∀ cell ∈ row, ∀ s ∈ cell, s < thr) :
    survivors scs thr = [] := by
  simp only [survivors, List.flatten_eq_nil_iff, List.mem_map]
  rintro l ⟨yr, hyr, rfl⟩
  rw [List.filterMap_eq_nil_iff]
  intro xc hxc
  have hrow : yr.2 ∈ scs := by
    have := List.mem_enum_iff_getElem?.1 hyr
    exact List.getElem?_mem this
  have hcell : xc.2 ∈ yr.2 := by
    have := List.mem_enum_iff_getElem?.1 hxc
    exact List.getElem?_mem this
  have hlt : cellMax xc.2 < thr :=
    cellMax_lt (hne yr.2 hrow xc.2 hcell) (hb yr.2 hrow xc.2 hcell)
  simp only [ite_eq_right_iff]
  intro hcon
  exact absurd hlt (not_lt.2 (le_of_lt hcon))

theorem gatherE_mem {cells : List Cell} :
    ∀ {idx : List ℕ} {l : List Cell}, gatherE cells idx = Except.ok l →
      ∀ c ∈ l, c ∈ cells := by
  intro idx
  induction idx with
  | nil =>
      intro l hl c hc
      simp only [gatherE] at hl
      cases hl
      cases hc
  | cons i rest ih =>
      intro l hl c hc
      simp only [gatherE] at hl
      cases hgi : cells.get? i with
      | none => rw [hgi] at hl; cases hl
      | some c0 =>
          rw [hgi] at hl
          cases hrest : gatherE cells rest with
          | error e => rw [hrest] at hl; cases hl
          | ok l0 =>
              rw [hrest] at hl
              cases hl
              rcases List.mem_cons.1 hc with hc | hc
              · subst hc
                exact List.get?_mem hgi
              · exact ih hrest c hc

theorem processAll_length {bxs mks : List (List (List ℚ))} {maskCh : ℕ} :
    ∀ {cs : List Cell} {dets : List Det},
      processAll bxs mks maskCh cs = Except.ok dets → dets.length ≤ cs.length := by
  intro cs
  induction cs with
  | nil =>
      intro dets h
      simp only [processAll] at h
      cases h
      simp
  | cons c rest ih =>
      intro dets h
      simp only [processAll] at h
      cases hpc : processCell bxs mks maskCh c with
      | error e => rw [hpc] at h; cases h
      | ok od =>
          rw [hpc] at h
          cases od with
          | none =>
              simp only [List.length_cons]
              exact le_trans (ih h) (Nat.le_succ _)
          | some d =>
              cases hrest : processAll bxs mks maskCh rest with
              | error e => rw [hrest] at h; cases h
              | ok ds =>
                  rw [hrest] at h
                  cases h
                  simpa using Nat.succ_le_succ (ih hrest)

theorem processAll_mem {bxs mks : List (List (List ℚ))} {maskCh : ℕ} :
    ∀ {cs : List Cell} {dets : List Det},
      processAll bxs mks maskCh cs = Except.ok dets →
      ∀ d ∈ dets, ∃ c ∈ cs, processCell bxs mks maskCh c = Except.ok (some d) := by
  intro cs
  induction cs with
  | nil =>
      intro dets h d hd
      simp only [processAll] at h
      cases h
      cases hd
  | cons c rest ih =>
      intro dets h d hd
      simp only [processAll] at h
      cases hpc : processCell bxs mks maskCh c with
      | error e => rw [hpc] at h; cases h
      | ok od =>
          rw [hpc] at h
          cases od with
          | none =>
              obtain ⟨c', hc', hp'⟩ := ih h d hd
              exact ⟨c', List.mem_cons_of_mem c hc', hp'⟩
          | some d0 =>
              cases hrest : processAll bxs mks maskCh rest with
              | error e => rw [hrest] at h; cases h
              | ok ds =>
                  rw [hrest] at h
                  cases h
                  rcases List.mem_cons.1 hd with hd | hd
                  · subst hd
                    exact ⟨c, List.mem_cons_self c rest, hpc⟩
                  · obtain ⟨c', hc', hp'⟩ := ih hrest d hd
                    exact ⟨c', List.mem_cons_of_mem c hc', hp'⟩

theorem processCell_some {bxs mks : List (List (List ℚ))} {maskCh : ℕ} {c : Cell} {d : Det}
    (h : processCell bxs mks maskCh c = Except.ok (some d)) :
    d.score = c.score ∧ d.classId = c.classId ∧ c.classId < maskCh ∧
      d.mask = maskChannel mks c.classId ∧
      (1 : ℚ) / 100 < maskFrac (maskChannel mks c.classId) := by
  cases hbx : (bxs.get? c.y).bind (fun row => row.get? c.x) with
  | none =>
      simp only [processCell, hbx] at h
      exact Except.noConfusion h
  | some cellBox =>
      simp only [processCell, hbx] at h
      by_cases h1 : cellBox.length % 4 ≠ 0 ∨ cellBox.length = 0
      · rw [if_pos h1] at h
        exact Except.noConfusion h
      · rw [if_neg h1] at h
        by_cases h2 : maskCh ≤ c.classId
        · rw [if_pos h2] at h
          exact Option.noConfusion (Except.ok.inj h)
        · rw [if_neg h2] at h
          by_cases h3 : (1 : ℚ) / 100 < maskFrac (maskChannel mks c.classId)
          · rw [if_pos h3] at h
            cases h
            exact ⟨rfl, rfl, lt_of_not_le h2, rfl, h3⟩
          · rw [if_neg h3] at h
            exact Option.noConfusion (Except.ok.inj h)

theorem postprocess_some {thr : ℚ} {raw : RawOutput} {h w : ℕ} {r : PPResult}
    (H : postprocess_output thr raw h w = some r) :
    ∃ bxs scs mks sortedCells dets,
      raw.boxes.head? = some bxs ∧ raw.scores.head? = some scs ∧
      raw.masks.head? = some mks ∧
      gatherE (survivors scs thr) (npArgsortNeg ((survivors scs thr).map (·.score))) =
        Except.ok sortedCells ∧
      processAll bxs mks (maskChannels mks) (sortedCells.take 20) = Except.ok dets ∧
      dets ≠ [] ∧ ¬(h = 0 ∨ w = 0) ∧ r = buildResult dets h w := by
  unfold postprocess_output at H
  cases hE : postprocessE thr raw h w with
  | error e =>
      rw [hE] at H
      exact Option.noConfusion H
  | ok o =>
      rw [hE] at H
      subst H
      unfold postprocessE at hE
      cases hb : raw.boxes.head? with
      | none => simp only [hb] at hE; exact Except.noConfusion hE
      | some bxs =>
      simp only [hb] at hE
      cases hsc : raw.scores.head? with
      | none => simp only [hsc] at hE; exact Except.noConfusion hE
      | some scs =>
      simp only [hsc] at hE
      cases hcl : raw.classes.head? with
      | none => simp only [hcl] at hE; exact Except.noConfusion hE
      | some cls =>
      simp only [hcl] at hE
      cases hmk : raw.masks.head? with
      | none => simp only [hmk] at hE; exact Except.noConfusion hE
      | some mks =>
      simp only [hmk] at hE
      by_cases hg : scs.any (fun row => row.any (fun c => c.isEmpty))
      · rw [if_pos hg] at hE
        exact Except.noConfusion hE
      · rw [if_neg hg] at hE
        cases hs : survivors scs thr with
        | nil =>
            simp only [hs] at hE
            exact Option.noConfusion (Except.ok.inj hE)
        | cons v vrest =>
            simp only [hs] at hE
            cases hgE : gatherE (v :: vrest) (npArgsortNeg ((v :: vrest).map (·.score))) with
            | error e => simp only [hgE] at hE; exact Except.noConfusion hE
            | ok sortedCells =>
            simp only [hgE] at hE
            cases hpA : processAll bxs mks (maskChannels mks) (sortedCells.take 20) with
            | error e => simp only [hpA] at hE; exact Except.noConfusion hE
            | ok dets =>
            simp only [hpA] at hE
            cases dets with
            | nil => exact Option.noConfusion (Except.ok.inj hE)
            | cons d drest =>
                simp only [] at hE
                by_cases hw0 : h = 0 ∨ w = 0
                · rw [if_pos hw0] at hE
                  exact Except.noConfusion hE
                · rw [if_neg hw0] at hE
                  have hr : some (buildResult (d :: drest) h w) = some r := Except.ok.inj hE
                  refine ⟨bxs, scs, mks, sortedCells, d :: drest, rfl, rfl, rfl, ?_, hpA,
                    List.cons_ne_nil d drest, hw0, (Option.some.inj hr).symm⟩
                  rw [hs]
                  exact hgE

theorem headD_of_head? {α : Type} {l : List α} {a d : α} (h : l.head? = some a) :
    l.headD d = a := by
  cases l with
  | nil => exact Option.noConfusion h
  | cons x t =>
      simp only [List.head?] at h
      simpa [List.headD] using (Option.some.inj h)

theorem binarize_resize_shape (src : List (List ℚ)) (h w : ℕ) :
    (binarizeMask (cvResizeNearest src h w)).length = h ∧
    (∀ row ∈ binarizeMask (cvResizeNearest src h w), row.length = w) ∧
    (∀ row ∈ binarizeMask (cvResizeNearest src h w), ∀ v ∈ row, v = 0 ∨ v = 1) := by
  refine ⟨by simp [binarizeMask, cvResizeNearest], ?_, ?_⟩
  · intro row hrow
    simp only [binarizeMask, List.mem_map] at hrow
    obtain ⟨row0, hrow0, rfl⟩ := hrow
    simp only [cvResizeNearest, List.mem_map] at hrow0
    obtain ⟨i, _, rfl⟩ := hrow0
    simp
  · intro row hrow v hv
    simp only [binarizeMask, List.mem_map] at hrow
    obtain ⟨row0, _, rfl⟩ := hrow
    simp only [List.mem_map] at hv
    obtain ⟨q, _, rfl⟩ := hv
    by_cases hc : (1 : ℚ) / 2 < q
    · right
      rw [if_pos hc]
    · left
      rw [if_neg hc]

/-! ### Claim theorems -/

/-- C3: for every raw tensor bundle and frame shape, when
`postprocess_output` returns a non-`None` result, each of the four
returned arrays (boxes, scores, classes, masks) has length at most 20. -/
theorem C3_detection_cap (thr : ℚ) (raw : RawOutput) (h w : ℕ) (r : PPResult)
    (H : postprocess_output thr raw h w = some r) :
    r.boxes.length ≤ 20 ∧ r.scores.length ≤ 20 ∧ r.classes.length ≤ 20 ∧
      r.masks.length ≤ 20 := by
  obtain ⟨bxs, scs, mks, sortedCells, dets, hb, hsc, hmk, hg, hp, hne, hw0, rfl⟩ :=
    postprocess_some H
  have hlen : dets.length ≤ 20 := by
    refine le_trans (processAll_length hp) ?_
    simp [List.length_take]
  refine ⟨?_, ?_, ?_, ?_⟩ <;> simpa [buildResult] using hlen

/-- C3 witness: the cap holds at the concrete two-detection run of the
post-processor on `exRaw2` with frame size 2×2. -/
theorem C3_detection_cap_witness :
    exRes2.boxes.length ≤ 20 ∧ exRes2.scores.length ≤ 20 ∧ exRes2.classes.length ≤ 20 ∧
      exRes2.masks.length ≤ 20 :=
  C3_detection_cap (1/2) exRaw2 2 2 exRes2 (by with_unfolding_all decide)

/-- C4: every class id returned by `postprocess_output` is strictly
below the channel count of the input mask grid, and every returned score
strictly exceeds the confidence threshold. -/
theorem C4_class_and_score_bounds (thr : ℚ) (raw : RawOutput) (h w : ℕ) (r : PPResult)
    (H : postprocess_output thr raw h w = some r) :
    (∀ c ∈ r.classes, c < maskChannels (raw.masks.headD [])) ∧
    (∀ s ∈ r.scores, thr < s) := by
  obtain ⟨bxs, scs, mks, sortedCells, dets, hb, hsc, hmk, hg, hp, hne, hw0, rfl⟩ :=
    postprocess_some H
  rw [headD_of_head? hmk]
  constructor
  · intro c hc
    simp only [buildResult, List.mem_map] at hc
    obtain ⟨d, hd, rfl⟩ := hc
    obtain ⟨c0, _, hpc⟩ := processAll_mem hp d hd
    obtain ⟨_, hcid, hlt, _, _⟩ := processCell_some hpc
    rw [hcid]
    exact hlt
  · intro s hs
    simp only [buildResult, List.mem_map] at hs
    obtain ⟨d, hd, rfl⟩ := hs
    obtain ⟨c0, hc0, hpc⟩ := processAll_mem hp d hd
    obtain ⟨hscore, _, _, _, _⟩ := processCell_some hpc
    rw [hscore]
    have hmem : c0 ∈ sortedCells := List.take_subset 20 sortedCells hc0
    have hmem' : c0 ∈ survivors scs thr := gatherE_mem hg c0 hmem
    exact mem_survivors_score hmem'

/-- C4 witness: the class-id bound and the score bound at the concrete
single-detection run on `exRawS` with frame size 2×3 and threshold
0.5. -/
theorem C4_class_and_score_bounds_witness :
    0 < maskChannels (exRawS.masks.headD []) ∧ (1 : ℚ) / 2 < 9/10 :=
  ⟨(C4_class_and_score_bounds (1/2) exRawS 2 3 exResS (by with_unfolding_all decide)).1 0
      (by with_unfolding_all decide),
   (C4_class_and_score_bounds (1/2) exRawS 2 3 exResS (by with_unfolding_all decide)).2 (9/10)
      (by with_unfolding_all decide)⟩

/-- C7: every returned mask is produced by nearest-neighbour resizing of
a native-resolution mask followed by thresholding at 0.5, has shape
exactly (height, width), and all its entries are 0 or 1. -/
theorem C7_mask_shape_binary (thr : ℚ) (raw : RawOutput) (h w : ℕ) (r : PPResult)
    (H : postprocess_output thr raw h w = some r) :
    ∀ m ∈ r.masks,
      (∃ src, m = binarizeMask (cvResizeNearest src h w)) ∧
      m.length = h ∧ (∀ row ∈ m, row.length = w) ∧
      (∀ row ∈ m, ∀ v ∈ row, v = 0 ∨ v = 1) := by
  obtain ⟨bxs, scs, mks, sortedCells, dets, hb, hsc, hmk, hg, hp, hne, hw0, rfl⟩ :=
    postprocess_some H
  intro m hm
  simp only [buildResult, List.mem_map] at hm
  obtain ⟨d, _, rfl⟩ := hm
  obtain ⟨h1, h2, h3⟩ := binarize_resize_shape d.mask h w
  exact ⟨⟨d.mask, rfl⟩, h1, h2, h3⟩

/-- C7 witness: the mask property at the concrete run on `exRawS` with
frame size 2×3, instantiated at its single returned mask. -/
theorem C7_mask_shape_binary_witness :
    (∃ src, [[1, 1, 1], [1, 1, 1]] = binarizeMask (cvResizeNearest src 2 3)) ∧
    ([[1, 1, 1], [1, 1, 1]] : List (List ℕ)).length = 2 ∧
    (∀ row ∈ ([[1, 1, 1], [1, 1, 1]] : List (List ℕ)), row.length = 3) ∧
    (∀ row ∈ ([[1, 1, 1], [1, 1, 1]] : List (List ℕ)), ∀ v ∈ row, v = 0 ∨ v = 1) :=
  C7_mask_shape_binary (1/2) exRawS 2 3 exResS (by with_unfolding_all decide)
    [[1, 1, 1], [1, 1, 1]] (by with_unfolding_all decide)

/-- C10: any two detections returned in one result that share a class id
carry element-wise identical masks, because each mask is looked up
solely by class channel. -/
theorem C10_equal_class_equal_mask (thr : ℚ) (raw : RawOutput) (h w : ℕ) (r : PPResult)
    (H : postprocess_output thr raw h w = some r) (i j ci : ℕ)
    (hi : r.classes.get? i = some ci) (hj : r.classes.get? j = some ci) :
    r.masks.get? i = r.masks.get? j := by
  obtain ⟨bxs, scs, mks, sortedCells, dets, hb, hsc, hmk, hg, hp, hne, hw0, rfl⟩ :=
    postprocess_some H
  simp only [buildResult, List.get?_map] at hi hj ⊢
  cases hdi : dets.get? i with
  | none => rw [hdi] at hi; exact Option.noConfusion hi
  | some di =>
  cases hdj : dets.get? j with
  | none => rw [hdj] at hj; exact Option.noConfusion hj
  | some dj =>
  have hci : di.classId = ci := by
    rw [hdi, Option.map_some'] at hi
    exact Option.some.inj hi
  have hcj : dj.classId = ci := by
    rw [hdj, Option.map_some'] at hj
    exact Option.some.inj hj
  obtain ⟨ci0, _, hpci⟩ := processAll_mem hp di (List.get?_mem hdi)
  obtain ⟨cj0, _, hpcj⟩ := processAll_mem hp dj (List.get?_mem hdj)
  obtain ⟨_, hcidi, _, hmaski, _⟩ := processCell_some hpci
  obtain ⟨_, hcidj, _, hmaskj, _⟩ := processCell_some hpcj
  have : di.mask = dj.mask := by
    rw [hmaski, hmaskj, ← hcidi, ← hcidj, hci, hcj]
  simp [this]

/-- C10 witness: on `exRaw2` both returned detections have class 0 and
the two returned masks coincide. -/
theorem C10_equal_class_equal_mask_witness :
    exRes2.masks.get? 0 = exRes2.masks.get? 1 :=
  C10_equal_class_equal_mask (1/2) exRaw2 2 2 exRes2 (by with_unfolding_all decide) 0 1 0
    (by with_unfolding_all decide) (by with_unfolding_all decide)

/-- C1: golden test — the encoded box (0.1, 0.2, 0.3, 0.4) retained on a
100×200 frame maps to the pixel box (20, 20, 40, 60) in (y1, x1, y2, x2)
order; and in general every retained box is converted with the fixed
axis remapping: output y-coordinates are encoded components 1 and 3
scaled by the frame height, output x-coordinates are encoded components
0 and 2 scaled by the frame width, truncated to integer (int32 in
range). -/
theorem C1_box_pixel_mapping :
    (Option.map (fun r => r.boxes) (postprocess_output (1/2) exRawS 100 200) =
      some [[20, 20, 40, 60]]) ∧
    ∀ (thr : ℚ) (raw : RawOutput) (h w : ℕ) (r : PPResult),
      postprocess_output thr raw h w = some r →
      ∃ dets : List Det,
        r.boxes = dets.map (fun d =>
          [ratTrunc (d.box.getD 1 0 * (h : ℚ)), ratTrunc (d.box.getD 0 0 * (w : ℚ)),
           ratTrunc (d.box.getD 3 0 * (h : ℚ)), ratTrunc (d.box.getD 2 0 * (w : ℚ))]) ∧
        r.scores = dets.map (·.score) ∧ r.classes = dets.map (·.classId) ∧
        r.masks = dets.map (fun d => binarizeMask (cvResizeNearest d.mask h w)) := by
  constructor
  · with_unfolding_all decide
  · intro thr raw h w r H
    obtain ⟨bxs, scs, mks, sortedCells, dets, hb, hsc, hmk, hg, hp, hne, hw0, rfl⟩ :=
      postprocess_some H
    exact ⟨dets, rfl, rfl, rfl, rfl⟩

/-- C1 witness: the general axis-remapping conjunct applied at the
concrete run on `exRawS` with frame size 2×3. -/
theorem C1_box_pixel_mapping_witness :
    ∃ dets : List Det,
      exResS.boxes = dets.map (fun d =>
        [ratTrunc (d.box.getD 1 0 * (2 : ℚ)), ratTrunc (d.box.getD 0 0 * (3 : ℚ)),
         ratTrunc (d.box.getD 3 0 * (2 : ℚ)), ratTrunc (d.box.getD 2 0 * (3 : ℚ))]) ∧
      exResS.scores = dets.map (·.score) ∧ exResS.classes = dets.map (·.classId) ∧
      exResS.masks = dets.map (fun d => binarizeMask (cvResizeNearest d.mask 2 3)) :=
  C1_box_pixel_mapping.2 (1/2) exRawS 2 3 exResS (by with_unfolding_all decide)

/-- C5: when every cell of the score grid has its per-class maximum
strictly below the confidence threshold (here: every per-class score is
strictly below it), `postprocess_output` returns `None`. -/
theorem C5_all_below_threshold_none (thr : ℚ) (raw : RawOutput) (h w : ℕ)
    (hb : ∀ row ∈ raw.scores.headD [], ∀ cell ∈ row, ∀ s ∈ cell, s < thr) :
    postprocess_output thr raw h w = none := by
  unfold postprocess_output postprocessE
  cases hbx : raw.boxes.head? with
  | none => rfl
  | some bxs =>
  cases hsc : raw.scores.head? with
  | none => rfl
  | some scs =>
  cases hcl : raw.classes.head? with
  | none => rfl
  | some cls =>
  cases hmk : raw.masks.head? with
  | none => rfl
  | some mks =>
  simp only []
  have hscs : ∀ row ∈ scs, ∀ cell ∈ row, ∀ s ∈ cell, s < thr := by
    rw [← headD_of_head? (d := []) hsc]
    exact hb
  by_cases hg : scs.any (fun row => row.any (fun c => c.isEmpty))
  · rw [if_pos hg]
  · rw [if_neg hg]
    have hne : ∀ row ∈ scs, ∀ cell ∈ row, cell ≠ [] := by
      intro row hrow cell hcell hnil
      apply hg
      rw [List.any_eq_true]
      refine ⟨row, hrow, ?_⟩
      rw [List.any_eq_true]
      exact ⟨cell, hcell, by rw [hnil]; rfl⟩
    rw [survivors_eq_nil hne hscs]

/-- C5 witness: the concrete bundle `exRawLow`, whose only cell scores
0.1 against the default threshold 0.5, produces `None`. -/
theorem C5_all_below_threshold_none_witness :
    postprocess_output (1/2) exRawLow 100 200 = none :=
  C5_all_below_threshold_none (1/2) exRawLow 100 200 (by with_unfolding_all decide)

/-- C8: any exception inside the `try` body of `postprocess_output` is
converted to a `None` result, and likewise for `predict` (whose body may
raise only in preprocessing, inference being totalised by its own
handler); a `None` frame also yields `None`.  The embedded functions are
total, so no exception propagates to the per-frame loop. -/
theorem C8_exceptions_to_none :
    (∀ (thr : ℚ) (raw : RawOutput) (h w : ℕ) (e : Unit),
        postprocessE thr raw h w = Except.error e →
        postprocess_output thr raw h w = none) ∧
    (∀ (thr : ℚ) (inH inW : ℕ) (infer : Frame → Except Unit (Option RawOutput))
        (ctxOk : Bool) (f : Frame) (e : Unit),
        predictBodyE thr inH inW infer ctxOk f = Except.error e →
        predict thr inH inW infer ctxOk (some f) = none) ∧
    (∀ (thr : ℚ) (inH inW : ℕ) (infer : Frame → Except Unit (Option RawOutput))
        (ctxOk : Bool), predict thr inH inW infer ctxOk none = none) := by
  refine ⟨?_, ?_, ?_⟩
  · intro thr raw h w e hE
    unfold postprocess_output
    rw [hE]
  · intro thr inH inW infer ctxOk f e hE
    unfold predict
    simp only []
    rw [hE]
  · intro thr inH inW infer ctxOk
    rfl

/-- C8 witness: a bundle with empty batch axes raises at the batch strip
(`boxes[0]`), and `postprocess_output` returns `None` for it; a frame of
degenerate size raises in preprocessing and `predict` returns `None`. -/
theorem C8_exceptions_to_none_witness :
    postprocess_output (1/2) ⟨[], [], [], []⟩ 100 200 = none ∧
    predict (1/2) 1024 1920 (fun _ => Except.ok none) true (some ⟨0, 0⟩) = none :=
  ⟨C8_exceptions_to_none.1 (1/2) ⟨[], [], [], []⟩ 100 200 () rfl,
   C8_exceptions_to_none.2.1 (1/2) 1024 1920 (fun _ => Except.ok none) true ⟨0, 0⟩ () rfl⟩

theorem configGetKeys_of_not_present :
    ∀ (keys : List String) (data dflt : YVal), pathPresent data keys = false →
      configGetKeys dflt data keys = dflt
  | [], _, _, hp => by simp [pathPresent] at hp
  | k :: rest, YVal.dict d, dflt, hp => by
      simp only [configGetKeys]
      cases hlk : ylookup k d with
      | none => rfl
      | some v =>
          simp only [pathPresent, hlk] at hp
          exact configGetKeys_of_not_present rest v dflt hp
  | k :: rest, YVal.null, _, _ => rfl
  | k :: rest, YVal.bool _, _, _ => rfl
  | k :: rest, YVal.int _, _, _ => rfl
  | k :: rest, YVal.str _, _, _ => rfl
  | k :: rest, YVal.list _, _, _ => rfl

/-- C9: `Config.get` returns the caller-supplied default (Python `None`,
i.e. `YVal.null`, when no default is given) whenever the dotted key path
is not entirely present in the loaded document; and `Config._load_config`
returns the hard-coded default document when the configuration file does
not exist. -/
theorem C9_config_defaults :
    (∀ (data : YVal) (keyPath : String) (dflt : YVal),
        pathPresent data (keyPath.splitOn (".")) = false →
        configGet data keyPath dflt = dflt) ∧
    loadConfig none = defaultConfig := by
  constructor
  · intro data keyPath dflt hp
    exact configGetKeys_of_not_present (keyPath.splitOn (".")) data dflt hp
  · rfl

/-- C9 witness: the key path `model.confidence_threshold` is absent from
the hard-coded default document, so `Config.get` falls back to the
supplied default — exactly the lookup the inference wrapper performs to
obtain its 0.5 threshold. -/
theorem C9_config_defaults_witness :
    configGet defaultConfig ("model.confidence_threshold") (YVal.int 99) = YVal.int 99 :=
  C9_config_defaults.1 defaultConfig ("model.confidence_threshold") (YVal.int 99)
    (by with_unfolding_all decide)

/-- C6 (amended): for a surviving cell processed in step 5 whose box
cell is well-formed and whose class id is in bounds for the mask
channels, the cell is excluded if and only if the fraction of its
mask-channel pixels above 0.5 is *at most* 1% — equivalently it is
retained if and only if that fraction strictly exceeds 1% (the code
keeps on `np.mean(mask > 0.5) > 0.01`, so a coverage of exactly 1% is
excluded, not retained as the original claim stated). -/
theorem C6_coverage_filter (bxs mks : List (List (List ℚ))) (maskCh : ℕ) (c : Cell)
    (cb : List ℚ) (hbx : (bxs.get? c.y).bind (fun row => row.get? c.x) = some cb)
    (hlen : cb.length % 4 = 0) (hne : cb ≠ []) (hcid : c.classId < maskCh) :
    (processCell bxs mks maskCh c = Except.ok none ↔
      maskFrac (maskChannel mks c.classId) ≤ 1 / 100) ∧
    (processCell bxs mks maskCh c =
        Except.ok (some ⟨cb.take 4, c.score, c.classId, maskChannel mks c.classId⟩) ↔
      1 / 100 < maskFrac (maskChannel mks c.classId)) := by
  have hcond : ¬(cb.length % 4 ≠ 0 ∨ cb.length = 0) := by
    push_neg
    exact ⟨hlen, fun h0 => hne (List.length_eq_zero.1 h0)⟩
  simp only [processCell, hbx, if_neg hcond, if_neg (not_le.2 hcid)]
  by_cases hf : (1 : ℚ) / 100 < maskFrac (maskChannel mks c.classId)
  · rw [if_pos hf]
    refine ⟨⟨fun h => ?_, fun hle => absurd hf (not_lt.2 hle)⟩, ⟨fun _ => hf, fun _ => rfl⟩⟩
    exact Option.noConfusion (Except.ok.inj h)
  · rw [if_neg hf]
    refine ⟨⟨fun _ => not_lt.1 hf, fun _ => rfl⟩, ⟨fun h => ?_, fun hlt => absurd hlt hf⟩⟩
    exact Option.noConfusion (Except.ok.inj h)

/-- C6 counterexample to the original claim: `cexC6` has one surviving
cell (score 0.9, class 0, in bounds for its single mask channel) whose
mask covers exactly 1% of its 10×10 pixels.  The original claim says a
cell whose thresholded mask covers at least 1% of the pixels is
retained; the code excludes it and the whole result is `None`. -/
theorem C6_coverage_filter_counterexample :
    maskFrac (maskChannel (cexC6.masks.headD []) 0) = 1 / 100 ∧
    survivors (cexC6.scores.headD []) (1/2) = [⟨0, 0, 9/10, 0⟩] ∧
    maskChannels (cexC6.masks.headD []) = 1 ∧
    postprocess_output (1/2) cexC6 100 200 = none := by
  with_unfolding_all decide

/-- C6 witness: on a fully covered 1×1 mask channel (coverage 100% >
1%) the same cell is retained by step 5. -/
theorem C6_coverage_filter_witness :
    processCell [[[1/10, 2/10, 3/10, 4/10]]] [[[1]]] 1 ⟨0, 0, 9/10, 0⟩ =
      Except.ok (some ⟨[1/10, 2/10, 3/10, 4/10], 9/10, 0, [[1]]⟩) :=
  (C6_coverage_filter [[[1/10, 2/10, 3/10, 4/10]]] [[[1]]] 1 ⟨0, 0, 9/10, 0⟩
      [1/10, 2/10, 3/10, 4/10] (by with_unfolding_all decide) (by decide)
      (by decide) (by decide)).2.mpr (by with_unfolding_all decide)

/-! ### Lemmas about the insertion path of the argsort -/

theorem ainsertStep_perm (key : ℕ → ℚ) (i : ℕ) :
    ∀ l : List ℕ, (ainsertStep key i l).Perm (i :: l)
  | [] => by simp [ainsertStep]
  | j :: rest => by
      by_cases hall : (j :: rest).all (fun k => decide (key i < key k)) = true
      · simp only [ainsertStep, if_pos hall]
        exact List.Perm.refl _
      · simp only [ainsertStep, if_neg hall]
        exact ((ainsertStep_perm key i rest).cons j).trans (List.Perm.swap i j rest)

theorem ainsertStep_pairwise (key : ℕ → ℚ) (i : ℕ) :
    ∀ l : List ℕ, l.Pairwise (SRel key) → (∀ x ∈ l, x < i) →
      (ainsertStep key i l).Pairwise (SRel key)
  | [], _, _ => by simp [ainsertStep]
  | j :: rest, hp, hup => by
      by_cases hall : (j :: rest).all (fun k => decide (key i < key k)) = true
      · simp only [ainsertStep, if_pos hall]
        refine List.Pairwise.cons ?_ hp
        intro b hb
        exact Or.inl (of_decide_eq_true (List.all_eq_true.1 hall b hb))
      · simp only [ainsertStep, if_neg hall]
        have hj := (List.pairwise_cons.1 hp).1
        have hrest := (List.pairwise_cons.1 hp).2
        refine List.Pairwise.cons ?_
          (ainsertStep_pairwise key i rest hrest
            (fun x hx => hup x (List.mem_cons_of_mem j hx)))
        intro b hb
        have hbmem : b = i ∨ b ∈ rest := by
          have := (List.Perm.mem_iff (ainsertStep_perm key i rest)).1 hb
          simpa using this
        rcases hbmem with rfl | hbr
        · have hji : j < b := hup j (List.mem_cons_self j rest)
          have hex : ∃ k ∈ j :: rest, ¬ key b < key k := by
            by_contra hcon
            push_neg at hcon
            exact hall (List.all_eq_true.2 (fun k hk => decide_eq_true (hcon k hk)))
          obtain ⟨k, hk, hki⟩ := hex
          have hjk : key j ≤ key k := by
            rcases List.mem_cons.1 hk with rfl | hkr
            · exact le_refl _
            · rcases hj k hkr with hlt | ⟨heq, _⟩
              · exact le_of_lt hlt
              · exact le_of_eq heq
          have hji' : key j ≤ key b := le_trans hjk (not_lt.1 hki)
          rcases lt_or_eq_of_le hji' with hlt | heq
          · exact Or.inl hlt
          · exact Or.inr ⟨heq, hji⟩
        · exact hj b hbr

theorem ainsertFold_pairwise (key : ℕ → ℚ) :
    ∀ (l acc : List ℕ), acc.Pairwise (SRel key) →
      (∀ x ∈ acc, ∀ y ∈ l, x < y) → l.Pairwise (· < ·) →
      (l.foldl (fun a i => ainsertStep key i a) acc).Pairwise (SRel key)
  | [], _, hacc, _, _ => hacc
  | i :: rest, acc, hacc, hcross, hl => by
      simp only [List.foldl_cons]
      have hi := (List.pairwise_cons.1 hl).1
      have hrest := (List.pairwise_cons.1 hl).2
      apply ainsertFold_pairwise key rest
      · exact ainsertStep_pairwise key i acc hacc
          (fun x hx => hcross x hx i (List.mem_cons_self i rest))
      · intro x hx y hy
        have hxmem : x = i ∨ x ∈ acc := by
          have := (List.Perm.mem_iff (ainsertStep_perm key i acc)).1 hx
          simpa using this
        rcases hxmem with rfl | hxa
        · exact hi y hy
        · exact hcross x hxa y (List.mem_cons_of_mem i hy)
      · exact hrest

theorem ainsertFold_perm (key : ℕ → ℚ) :
    ∀ (l acc : List ℕ), (l.foldl (fun a i => ainsertStep key i a) acc).Perm (l ++ acc)
  | [], acc => by simp
  | i :: rest, acc => by
      simp only [List.foldl_cons, List.cons_append]
      refine (ainsertFold_perm key rest (ainsertStep key i acc)).trans ?_
      refine (List.Perm.append_left rest (ainsertStep_perm key i acc)).trans ?_
      exact List.perm_middle

theorem ainsertionList_pairwise (key : ℕ → ℚ) (l : List ℕ) (hl : l.Pairwise (· < ·)) :
    (ainsertionList key l).Pairwise (SRel key) :=
  ainsertFold_pairwise key l [] List.Pairwise.nil (by simp) hl

theorem ainsertionList_perm (key : ℕ → ℚ) (l : List ℕ) : (ainsertionList key l).Perm l := by
  simpa using ainsertFold_perm key l []

theorem range_map_getD (n : ℕ) :
    (List.range n).map (fun k => (List.range n).getD k 0) = List.range n := by
  have h : ∀ a ∈ List.range n, (List.range n).getD a 0 = a := by
    intro a ha
    rw [List.getD_eq_getElem?_getD, List.getElem?_range (List.mem_range.1 ha)]
    rfl
  calc (List.range n).map (fun k => (List.range n).getD k 0)
      = (List.range n).map id := List.map_congr_left h
    _ = List.range n := List.map_id _

theorem ainsertionSeg_full (key : ℕ → ℚ) (n : ℕ) :
    ainsertionSeg key (List.range n) 0 (n - 1) = ainsertionList key (List.range n) := by
  cases n with
  | zero => rfl
  | succ m =>
      simp only [ainsertionSeg, List.length_range, Nat.sub_zero, Nat.zero_add,
        Nat.succ_sub_one]
      rw [min_self, range_map_getD, List.take_zero, List.nil_append,
        List.drop_eq_nil_of_le (by simp), List.append_nil]

theorem npArgsortNeg_small (xs : List ℚ) (hn : xs.length ≤ 16) :
    npArgsortNeg xs =
      ainsertionList (fun i => -(xs.getD i 0)) (List.range xs.length) := by
  unfold npArgsortNeg
  simp only []
  rw [show 4 * xs.length + 16 = (4 * xs.length + 15) + 1 from rfl]
  rw [aqsLoop]
  rw [if_neg (by omega : ¬ 15 < xs.length - 1 - 0)]
  exact ainsertionSeg_full _ xs.length

/-- C2 (amended): the surviving cells are reordered by
`np.argsort(-cell_scores)` with numpy's default quicksort kind, which is
*not* a stable sort, so the original tie-break claim fails in general
(see the counterexample with 17 tied cells).  In the regime where at
most 16 cells survive the threshold, the sort runs entirely through its
insertion-sort path and the original claim holds before the cap of 20 is
applied: the index permutation covers every surviving cell exactly once,
confidences are non-increasing along it, and cells with equal confidence
keep their row-major scan order (the order of `survivors`). -/
theorem C2_sort_order (scs : List (List (List ℚ))) (thr : ℚ)
    (hn : (survivors scs thr).length ≤ 16) :
    (npArgsortNeg ((survivors scs thr).map (·.score))).Perm
      (List.range (survivors scs thr).length) ∧
    ∀ p q ip iq, p < q →
      (npArgsortNeg ((survivors scs thr).map (·.score))).get? p = some ip →
      (npArgsortNeg ((survivors scs thr).map (·.score))).get? q = some iq →
      ((survivors scs thr).map (·.score)).getD iq 0 ≤
        ((survivors scs thr).map (·.score)).getD ip 0 ∧
      (((survivors scs thr).map (·.score)).getD ip 0 =
          ((survivors scs thr).map (·.score)).getD iq 0 → ip < iq) := by
  set xs := (survivors scs thr).map (·.score) with hxs
  have hn' : xs.length ≤ 16 := by simpa [hxs] using hn
  have hkey : npArgsortNeg xs =
      ainsertionList (fun i => -(xs.getD i 0)) (List.range xs.length) :=
    npArgsortNeg_small xs hn'
  have hlen : xs.length = (survivors scs thr).length := by simp [hxs]
  constructor
  · rw [hkey, ← hlen]
    exact ainsertionList_perm _ _
  · intro p q ip iq hpq hp hq
    have hP := ainsertionList_pairwise (fun i => -(xs.getD i 0)) (List.range xs.length)
      (List.pairwise_lt_range xs.length)
    rw [hkey] at hp hq
    obtain ⟨hplt, hpget⟩ := List.get?_eq_some.1 hp
    obtain ⟨hqlt, hqget⟩ := List.get?_eq_some.1 hq
    have hrel := List.pairwise_iff_get.1 hP ⟨p, hplt⟩ ⟨q, hqlt⟩ hpq
    rw [hpget, hqget] at hrel
    unfold SRel at hrel
    rcases hrel with hlt | ⟨heq, hij⟩
    · have hlt' : xs.getD iq 0 < xs.getD ip 0 := by
        have := neg_lt_neg_iff.1 hlt
        exact this
      refine ⟨le_of_lt hlt', fun heq2 => absurd hlt' ?_⟩
      rw [heq2]
      exact lt_irrefl _
    · have heq' : xs.getD ip 0 = xs.getD iq 0 := neg_inj.1 heq
      exact ⟨le_of_eq heq'.symm, fun _ => hij⟩

/-- C2 witness: on the two-cell grid `scsW` (scores 0.9 and 0.7, so at
most 16 survivors) the argsort output is a permutation of the survivor
indices. -/
theorem C2_sort_order_witness :
    (npArgsortNeg ((survivors scsW (1/2)).map (·.score))).Perm
      (List.range (survivors scsW (1/2)).length) :=
  (C2_sort_order scsW (1/2) (by with_unfolding_all decide)).1

/-- C2 counterexample to the original claim: `cexScs17` has 17 surviving
cells, all with confidence 0.9, in row-major scan order `x = 0, ..., 16`.
The claim says equal-confidence cells keep scan order, i.e. the argsort
should be the identity permutation; numpy's unstable quicksort instead
places survivor 14 before survivor 13 (positions 1 and 2), and the
scrambled order is observable in the returned pixel boxes of
`postprocess_output` on `cexRaw17` (cell `x` carries the constant
encoded box `x/100`, frame 100×100, all scores tied at 0.9). -/
theorem C2_sort_order_counterexample :
    ((survivors cexScs17 (1/2)).map (·.score) = List.replicate 17 (9/10)) ∧
    (npArgsortNeg ((survivors cexScs17 (1/2)).map (·.score))).get? 1 = some 14 ∧
    (npArgsortNeg ((survivors cexScs17 (1/2)).map (·.score))).get? 2 = some 13 ∧
    Option.map (fun r => r.boxes) (postprocess_output (1/2) cexRaw17 100 100) =
      some ((([0, 14, 13, 12, 11, 10, 9, 15, 8, 6, 5, 4, 3, 2, 1, 7, 16] : List ℤ)).map
        (fun x => [x, x, x, x])) ∧
    Option.map (fun r => r.scores) (postprocess_output (1/2) cexRaw17 100 100) =
      some (List.replicate 17 (9/10)) := by
  with_unfolding_all decide
